import Mathlib

/-!
Verification of the nitfy CLI watch/polling subsystem and read-state store.

The definitions below are shallow embeddings of the TypeScript source:
- the watch module (filterNewMessages, shouldTriggerSound, playSound,
  the watchLoop poll cycle, the SIGINT handler, sleep),
- the read-state module state.ts (getStateKey, getLastReadTime,
  setLastReadTime, loadState),
- the unread command's filtering step.

Machine integers in the source are JavaScript numbers holding Unix timestamps
in seconds and priorities 1-5; they are modelled as Nat.
-/

namespace Nitfy

/-- One notification event, from the NtfyMessage interface in api.ts.
Fields not consulted by the watch logic (click, expires) are omitted;
optional fields are Option-valued exactly as in the interface. -/
structure NtfyMessage where
  id : String
  time : Nat
  event : String := "message"
  topic : String := ""
  message : Option String := none
  title : Option String := none
  priority : Option Nat := none
  tags : List String := []
deriving Repr, DecidableEq

/-- filterNewMessages from the watch module: keep the messages strictly newer
than lastSeenTime (m.time > lastSeenTime), then sort ascending by time
(the source sorts with the comparator a.time - b.time). -/
def filterNewMessages (messages : List NtfyMessage) (lastSeenTime : Nat) :
    List NtfyMessage :=
  let newer := messages.filter (fun m => lastSeenTime < m.time)
  newer.mergeSort (fun a b => a.time ≤ b.time)

/-- shouldTriggerSound from the watch module: true when some message's
priority (defaulting to 3 when the field is absent) meets or exceeds the
threshold. -/
def shouldTriggerSound (messages : List NtfyMessage)
    (priorityThreshold : Nat) : Bool :=
  messages.any (fun m => priorityThreshold ≤ m.priority.getD 3)

/-- Number of platform playback attempts performed by one call of playSound:
the function returns immediately without any playback when noSound is set,
and otherwise dispatches audio once for the call. -/
def playSoundDispatch (noSound : Bool) : Nat :=
  if noSound then 0 else 1

/-- Audio dispatches performed for one topic in one poll cycle, from the
watch loop body: an empty new-message subset is skipped before any side
effect; otherwise playSound is called once for the whole subset exactly when
shouldTriggerSound holds for it. -/
def audioDispatches (newMessages : List NtfyMessage)
    (priorityThreshold : Nat) (noSound : Bool) : Nat :=
  if newMessages.isEmpty then 0
  else if shouldTriggerSound newMessages priorityThreshold then
    playSoundDispatch noSound
  else 0

/-- One successful-fetch poll step of the watch loop for a single topic:
compute the new-message subset; when it is empty the cursor is unchanged and
nothing is rendered; otherwise the cursor becomes the time of the last
element of the (ascending-sorted) subset and the subset is rendered. -/
def stepTopic (lastTime : Nat) (messages : List NtfyMessage) :
    Nat × List NtfyMessage :=
  let newMessages := filterNewMessages messages lastTime
  match newMessages.getLast? with
  | none => (lastTime, [])
  | some newest => (newest.time, newMessages)

/-- A whole watch session for one topic: fold stepTopic over the sequence of
per-cycle fetch responses, starting from the seed cursor, returning the
final cursor and the concatenated render log. -/
def sessionRun (cursor : Nat) :
    List (List NtfyMessage) → Nat × List NtfyMessage
  | [] => (cursor, [])
  | r :: rs =>
    let step := stepTopic cursor r
    let rest := sessionRun step.1 rs
    (rest.1, step.2 ++ rest.2)

-- Multi-topic poll cycle (watchLoop main loop body) --------------------------

/-- The watch loop's per-cycle mutable state and observable output: the
per-topic cursor map (lastSeenTime) and counter map (messageCounts), the
messages written to stdout tagged with their topic, and the fetch errors
written to stderr tagged with their topic. -/
structure CycleState where
  cursors : String → Nat
  counts : String → Nat
  rendered : List (String × NtfyMessage)
  errors : List (String × String)

/-- Processing of one topic inside a poll cycle (the try/catch body of the
inner for-loop of watchLoop): a failed fetch logs an error against the
topic and changes nothing else; a successful fetch filters to strictly-newer
messages, and when some exist advances the cursor to the newest time,
bumps the topic counter by the batch size and renders the batch. -/
def processTopic (fetch : String → Except String (List NtfyMessage))
    (st : CycleState) (topic : String) : CycleState :=
  match fetch topic with
  | .error e => { st with errors := st.errors ++ [(topic, e)] }
  | .ok messages =>
    let lastTime := st.cursors topic
    let newMessages := filterNewMessages messages lastTime
    match newMessages.getLast? with
    | none => st
    | some newest =>
      { cursors := fun t => if t = topic then newest.time else st.cursors t
        counts := fun t =>
          if t = topic then st.counts t + newMessages.length else st.counts t
        rendered := st.rendered ++ newMessages.map (fun m => (topic, m))
        errors := st.errors }

/-- One full poll cycle: the topics are processed sequentially in their
fixed list order. -/
def runCycle (fetch : String → Except String (List NtfyMessage))
    (st : CycleState) (topics : List String) : CycleState :=
  topics.foldl (processTopic fetch) st

/-- The messages rendered for one topic, in output order. -/
def renderedFor (st : CycleState) (topic : String) : List NtfyMessage :=
  (st.rendered.filter (fun p => p.1 = topic)).map (fun p => p.2)

-- Durable read-state store (state.ts) ----------------------------------------

/-- TopicState from state.ts. -/
structure TopicState where
  lastReadTime : Nat
deriving Repr, DecidableEq

/-- State from state.ts: the Record from compound keys to TopicState,
modelled as a partial map. -/
structure State where
  topics : String → Option TopicState

/-- The empty store, the literal the source writes as "\x7b topics: \x7b\x7d \x7d". -/
def emptyState : State := { topics := fun _ => none }

/-- getStateKey from state.ts: the compound key "profileName/topicName". -/
def getStateKey (profileName topic : String) : String :=
  profileName ++ "/" ++ topic

/-- getLastReadTime from state.ts: 0 when no entry exists. -/
def getLastReadTime (state : State) (profileName topic : String) : Nat :=
  match state.topics (getStateKey profileName topic) with
  | some ts => ts.lastReadTime
  | none => 0

/-- setLastReadTime from state.ts: a functional update of the single
compound key, leaving every other key unchanged. -/
def setLastReadTime (state : State) (profileName topic : String)
    (time : Nat) : State :=
  { topics := fun k =>
      if k = getStateKey profileName topic then some { lastReadTime := time }
      else state.topics k }

/-- Outcome of reading the state file, as observed by loadState: the file is
absent, or present and JSON.parse yields a store, or present and JSON.parse
throws. -/
inductive StateFile where
  | missing
  | parsed (st : State)
  | corrupt

/-- loadState from state.ts, paired with the warning lines it writes to
stderr: a missing file yields the empty store, a parseable file yields the
parsed store, and a corrupt file is caught and yields the empty store; the
source writes no warning on any of the three paths, so the second component
is always empty. -/
def loadState : StateFile → State × List String
  | .missing => (emptyState, [])
  | .parsed st => (st, [])
  | .corrupt => (emptyState, [])

/-- One watch session together with the durable read-state store: watchLoop
(the watch module) runs its poll cycles but its body contains no call to
setLastReadTime or saveState, so the durable store is passed through the
session unchanged. Returns the store after the session, the final cursor
and the render log. -/
def watchSessionRun (store : State) (cursor : Nat)
    (responses : List (List NtfyMessage)) :
    State × Nat × List NtfyMessage :=
  (store, sessionRun cursor responses)

/-- The unread command's per-topic filtering step (cmdUnread in the CLI
entry module): when a positive last-read time is recorded for the profile
and topic, keep the fetched messages strictly newer than it; otherwise all
fetched messages are reported unread. -/
def unreadFilter (state : State) (profileName topic : String)
    (messages : List NtfyMessage) : List NtfyMessage :=
  let lastRead := getLastReadTime state profileName topic
  if 0 < lastRead then messages.filter (fun m => lastRead < m.time)
  else messages

-- Sleep and cancellation timing (watch module) -------------------------------

/-- sleep from the watch module: the promise resolves via
setTimeout(resolve, ms) after exactly ms milliseconds; the function takes no
cancellation signal and registers no abort listener, so the wake-up instant
is start + ms whatever the instant abortAt at which cancellation is
signaled. -/
def sleepWake (start ms : Nat) (abortAt : Option Nat) : Nat := start + ms

/-- The watch loop around its inter-cycle sleep: the abort signal is checked
before the sleep starts and again at the top of the loop after the sleep
returns; a cancellation signaled at instant abortAt inside the sleep window
is only observed once the full sleep has elapsed, so the loop exits at the
sleep's wake-up instant. -/
def watchExitTime (sleepStart intervalMs abortAt : Nat) : Nat :=
  sleepWake sleepStart intervalMs (some abortAt)

-- SIGINT shutdown (watch module) ---------------------------------------------

/-- Observable shutdown state of a watch process: how many session-summary
blocks have been printed and the exit codes of the process.exit calls that
took effect. -/
structure ProcState where
  summaries : Nat
  exitCodes : List Nat
deriving Repr, DecidableEq

/-- The body of the SIGINT handler installed by watchLoop: print the session
summary once, then call process.exit(0). -/
def sigintHandlerRun (p : ProcState) : ProcState :=
  { summaries := p.summaries + 1, exitCodes := p.exitCodes ++ [0] }

/-- Delivery of one SIGINT: the JavaScript runtime runs signal callbacks on
the single-threaded event loop, and process.exit terminates the process
immediately, so a queued signal reaches the handler only while no exit has
taken effect yet. -/
def deliverSigint (p : ProcState) : ProcState :=
  if p.exitCodes = [] then sigintHandlerRun p else p

/-- Delivery of n successive SIGINTs. -/
def deliverSigints (p : ProcState) : Nat → ProcState
  | 0 => p
  | n + 1 => deliverSigints (deliverSigint p) n

/-- The process state at watch-session start: no summary printed, no exit. -/
def initialProc : ProcState := { summaries := 0, exitCodes := [] }

-- Concrete inputs used in examples and witnesses ------------------------------

/-- A message with only id and time set (the other fields keep their
interface defaults). -/
def msg (i : String) (t : Nat) : NtfyMessage := { id := i, time := t }

/-- A message with id, time and an explicit priority. -/
def msgP (i : String) (t p : Nat) : NtfyMessage :=
  { id := i, time := t, priority := some p }

/-- A fetch collaborator for the isolation example: topic A's fetch throws,
topic B's fetch succeeds with two messages. -/
def fetchAB : String → Except String (List NtfyMessage) :=
  fun topic =>
    if topic = "A" then Except.error "boom"
    else Except.ok [msg "x" 100, msg "y" 200]

/-- The cycle state at session start: all cursors and counters seeded at 0,
nothing rendered, no errors. -/
def initCycle : CycleState :=
  { cursors := fun _ => 0, counts := fun _ => 0, rendered := [], errors := [] }

end Nitfy

namespace Nitfy

-- Basic lemmas about filterNewMessages ---------------------------------------

theorem mem_filterNewMessages {messages : List NtfyMessage}
    {lastSeenTime : Nat} {m : NtfyMessage} :
    m ∈ filterNewMessages messages lastSeenTime ↔
      m ∈ messages ∧ lastSeenTime < m.time := by
  unfold filterNewMessages
  simp [List.mem_filter]

theorem filterNewMessages_perm (messages : List NtfyMessage)
    (lastSeenTime : Nat) :
    (filterNewMessages messages lastSeenTime).Perm
      (messages.filter (fun m => lastSeenTime < m.time)) := by
  unfold filterNewMessages
  exact List.mergeSort_perm _ _

theorem filterNewMessages_sorted (messages : List NtfyMessage)
    (lastSeenTime : Nat) :
    (filterNewMessages messages lastSeenTime).Pairwise
      (fun a b => a.time ≤ b.time) := by
  unfold filterNewMessages
  have h := @List.sorted_mergeSort NtfyMessage
    (fun a b : NtfyMessage => decide (a.time ≤ b.time))
    (fun a b c hab hbc => by
      simp only [decide_eq_true_eq] at *
      omega)
    (fun a b => by
      simp only [Bool.or_eq_true, decide_eq_true_eq]
      omega)
    (messages.filter (fun m => lastSeenTime < m.time))
  refine h.imp ?_
  intro a b hab
  simpa using hab

theorem filterNewMessages_nodup {messages : List NtfyMessage}
    (lastSeenTime : Nat) (h : messages.Nodup) :
    (filterNewMessages messages lastSeenTime).Nodup :=
  (filterNewMessages_perm messages lastSeenTime).nodup_iff.mpr
    (h.filter _)

-- Lemmas about stepTopic and sessionRun --------------------------------------

theorem sorted_le_getLast {l : List NtfyMessage} {a : NtfyMessage}
    (hs : l.Pairwise (fun x y => x.time ≤ y.time))
    (h : l.getLast? = some a) :
    ∀ m ∈ l, m.time ≤ a.time := by
  obtain ⟨ys, rfl⟩ := List.getLast?_eq_some_iff.mp h
  intro m hm
  rcases List.mem_append.mp hm with hm | hm
  · exact (List.pairwise_append.mp hs).2.2 m hm a (List.mem_singleton_self a)
  · rw [List.mem_singleton.mp hm]

theorem stepTopic_none {c : Nat} {r : List NtfyMessage}
    (h : (filterNewMessages r c).getLast? = none) :
    stepTopic c r = (c, []) := by
  simp only [stepTopic, h]

theorem stepTopic_some {c : Nat} {r : List NtfyMessage} {newest : NtfyMessage}
    (h : (filterNewMessages r c).getLast? = some newest) :
    stepTopic c r = (newest.time, filterNewMessages r c) := by
  simp only [stepTopic, h]

theorem stepTopic_snd (c : Nat) (r : List NtfyMessage) :
    (stepTopic c r).2 = filterNewMessages r c := by
  cases h : (filterNewMessages r c).getLast? with
  | none =>
    rw [stepTopic_none h]
    simp only [List.getLast?_eq_none_iff] at h
    exact h.symm
  | some newest => rw [stepTopic_some h]

theorem stepTopic_le (c : Nat) (r : List NtfyMessage) :
    c ≤ (stepTopic c r).1 := by
  cases h : (filterNewMessages r c).getLast? with
  | none => rw [stepTopic_none h]
  | some newest =>
    rw [stepTopic_some h]
    exact le_of_lt (mem_filterNewMessages.mp
      (List.mem_of_getLast?_eq_some h)).2

theorem stepTopic_rendered (c : Nat) (r : List NtfyMessage) :
    ∀ m ∈ (stepTopic c r).2, c < m.time ∧ m.time ≤ (stepTopic c r).1 := by
  intro m hm
  rw [stepTopic_snd] at hm
  refine ⟨(mem_filterNewMessages.mp hm).2, ?_⟩
  cases h : (filterNewMessages r c).getLast? with
  | none =>
    have h' := h
    simp only [List.getLast?_eq_none_iff] at h'
    rw [h'] at hm
    cases hm
  | some newest =>
    rw [stepTopic_some h]
    exact sorted_le_getLast (filterNewMessages_sorted r c) h m hm

theorem sessionRun_le (rs : List (List NtfyMessage)) :
    ∀ c, c ≤ (sessionRun c rs).1 := by
  induction rs with
  | nil => intro c; simp [sessionRun]
  | cons r rs ih =>
    intro c
    exact le_trans (stepTopic_le c r) (ih (stepTopic c r).1)

theorem sessionRun_rendered (rs : List (List NtfyMessage)) :
    ∀ c m, m ∈ (sessionRun c rs).2 →
      c < m.time ∧ m.time ≤ (sessionRun c rs).1 := by
  induction rs with
  | nil => intro c m hm; simp [sessionRun] at hm
  | cons r rs ih =>
    intro c m hm
    simp only [sessionRun, List.mem_append] at hm ⊢
    rcases hm with hm | hm
    · obtain ⟨h1, h2⟩ := stepTopic_rendered c r m hm
      exact ⟨h1, le_trans h2 (sessionRun_le rs (stepTopic c r).1)⟩
    · obtain ⟨h1, h2⟩ := ih (stepTopic c r).1 m hm
      exact ⟨lt_of_le_of_lt (stepTopic_le c r) h1, h2⟩

theorem sessionRun_append (rs rs' : List (List NtfyMessage)) :
    ∀ c, sessionRun c (rs ++ rs') =
      ((sessionRun (sessionRun c rs).1 rs').1,
        (sessionRun c rs).2 ++ (sessionRun (sessionRun c rs).1 rs').2) := by
  induction rs with
  | nil => intro c; simp [sessionRun]
  | cons r rs ih =>
    intro c
    simp only [List.cons_append, sessionRun, ih (stepTopic c r).1,
      List.append_assoc, List.append_eq]

-- C1 --------------------------------------------------------------------------

/-- C1: within one watch session for a topic, no message is rendered twice:
for any seed cursor and any sequence of per-cycle fetch responses
(each response listing each message once, though responses may overlap
across cycles), the session's concatenated render log has no duplicate. -/
theorem watch_session_no_duplicate_render (c0 : Nat)
    (responses : List (List NtfyMessage))
    (h : ∀ r ∈ responses, r.Nodup) :
    (sessionRun c0 responses).2.Nodup := by
  induction responses generalizing c0 with
  | nil => simp [sessionRun]
  | cons r rs ih =>
    simp only [sessionRun]
    refine List.Nodup.append ?_ ?_ ?_
    · rw [stepTopic_snd]
      exact filterNewMessages_nodup c0 (h r (List.mem_cons_self r rs))
    · exact ih _ (fun r' hr' => h r' (List.mem_cons_of_mem r hr'))
    · intro a ha ha'
      have h1 := (stepTopic_rendered c0 r a ha).2
      have h2 := (sessionRun_rendered rs (stepTopic c0 r).1 a ha').1
      omega

/-- Witness for C1 at the claim's example: cycle 1 returns times 100 and
200, cycle 2 returns 200 and 300; each response is duplicate-free and the
session render log has no duplicate (times 100, 200, 300 each once). -/
theorem watch_session_no_duplicate_render_witness :
    (∀ r ∈ [[msg "a" 100, msg "b" 200], [msg "b" 200, msg "c" 300]],
        r.Nodup)
    ∧ (sessionRun 0
        [[msg "a" 100, msg "b" 200], [msg "b" 200, msg "c" 300]]).2.Nodup
    ∧ (sessionRun 0
        [[msg "a" 100, msg "b" 200], [msg "b" 200, msg "c" 300]]).2.map
          (fun m => m.time) = [100, 200, 300] := by
  refine ⟨by decide, watch_session_no_duplicate_render 0 _ (by decide), ?_⟩
  simp [sessionRun, stepTopic, filterNewMessages, msg,
    List.mergeSort, List.merge]

-- C2 --------------------------------------------------------------------------

/-- C2: for every fetched list and cursor, filterNewMessages returns a
permutation of exactly the input messages whose timestamp is strictly
greater than the cursor (so membership is equivalent to being an input
message with time > cursor), and the result is sorted ascending by
timestamp regardless of input order; in particular input times
[300, 100, 200] with cursor 50 come out in the order 100, 200, 300. -/
theorem filterNewMessages_strict_filter_sorted :
    (∀ (messages : List NtfyMessage) (cursor : Nat) (m : NtfyMessage),
        m ∈ filterNewMessages messages cursor ↔
          m ∈ messages ∧ cursor < m.time)
    ∧ (∀ (messages : List NtfyMessage) (cursor : Nat),
        (filterNewMessages messages cursor).Perm
          (messages.filter (fun m => cursor < m.time)))
    ∧ (∀ (messages : List NtfyMessage) (cursor : Nat),
        (filterNewMessages messages cursor).Pairwise
          (fun a b => a.time ≤ b.time))
    ∧ (filterNewMessages [msg "b" 300, msg "a" 100, msg "c" 200] 50).map
        (fun m => m.time) = [100, 200, 300] := by
  refine ⟨fun messages cursor m => mem_filterNewMessages,
    filterNewMessages_perm, filterNewMessages_sorted, ?_⟩
  simp [filterNewMessages, msg, List.mergeSort, List.merge]

-- C3 --------------------------------------------------------------------------

/-- C3: after a poll step that detects a non-empty batch of new messages,
the topic's cursor equals the maximum timestamp in the batch (it is the
time of a batch member and bounds every member's time); a step never
decreases the cursor, and across any further cycles of the session the
cursor never decreases. -/
theorem watch_cursor_eq_batch_max_and_monotone :
    (∀ (c : Nat) (r : List NtfyMessage), (stepTopic c r).2 ≠ [] →
        (∃ m ∈ (stepTopic c r).2, (stepTopic c r).1 = m.time)
        ∧ ∀ m ∈ (stepTopic c r).2, m.time ≤ (stepTopic c r).1)
    ∧ (∀ (c : Nat) (r : List NtfyMessage), c ≤ (stepTopic c r).1)
    ∧ (∀ (c : Nat) (rs rs' : List (List NtfyMessage)),
        (sessionRun c rs).1 ≤ (sessionRun c (rs ++ rs')).1) := by
  refine ⟨?_, stepTopic_le, ?_⟩
  · intro c r hne
    refine ⟨?_, fun m hm => (stepTopic_rendered c r m hm).2⟩
    rw [stepTopic_snd] at hne
    obtain ⟨newest, hsome⟩ := Option.isSome_iff_exists.mp
      (List.getLast?_isSome.mpr hne)
    refine ⟨newest, ?_, ?_⟩
    · rw [stepTopic_snd]
      exact List.mem_of_getLast?_eq_some hsome
    · rw [stepTopic_some hsome]
  · intro c rs rs'
    rw [sessionRun_append]
    exact sessionRun_le rs' (sessionRun c rs).1

/-- Witness for C3: with cursor 50 and a fetched batch at times 100 and 70,
the batch is non-empty, the cursor advances to the batch maximum 100, and
appending a further cycle never decreases the final cursor. -/
theorem watch_cursor_eq_batch_max_and_monotone_witness :
    (stepTopic 50 [msg "a" 100, msg "b" 70]).2 ≠ []
    ∧ ((∃ m ∈ (stepTopic 50 [msg "a" 100, msg "b" 70]).2,
          (stepTopic 50 [msg "a" 100, msg "b" 70]).1 = m.time)
        ∧ ∀ m ∈ (stepTopic 50 [msg "a" 100, msg "b" 70]).2,
            m.time ≤ (stepTopic 50 [msg "a" 100, msg "b" 70]).1)
    ∧ (stepTopic 50 [msg "a" 100, msg "b" 70]).1 = 100 := by
  have hne : (stepTopic 50 [msg "a" 100, msg "b" 70]).2 ≠ [] := by
    simp [stepTopic, filterNewMessages, msg, List.mergeSort, List.merge]
  refine ⟨hne, watch_cursor_eq_batch_max_and_monotone.1 50 _ hne, ?_⟩
  simp [stepTopic, filterNewMessages, msg, List.mergeSort, List.merge]

-- C4 --------------------------------------------------------------------------

/-- C4: in a poll cycle, audio is dispatched for a topic's new-message
subset exactly once when noSound is false and some message's priority
(default 3 when absent) meets or exceeds the threshold, and never
otherwise — never once per message; with threshold 4, a batch with
priorities [2, 3] dispatches no audio and a batch with priorities [2, 5]
dispatches exactly once. -/
theorem watch_audio_gating_once_iff :
    (∀ (newMessages : List NtfyMessage) (priorityThreshold : Nat)
        (noSound : Bool),
        audioDispatches newMessages priorityThreshold noSound =
          if noSound = false ∧
              ∃ m ∈ newMessages, priorityThreshold ≤ m.priority.getD 3
          then 1 else 0)
    ∧ audioDispatches [msgP "a" 100 2, msgP "b" 101 3] 4 false = 0
    ∧ audioDispatches [msgP "a" 100 2, msgP "b" 101 5] 4 false = 1 := by
  refine ⟨?_, by decide, by decide⟩
  intro newMessages priorityThreshold noSound
  unfold audioDispatches playSoundDispatch shouldTriggerSound
  rcases newMessages with _ | ⟨m, rest⟩
  · simp
  · rcases noSound with _ | _
    · simp [List.any_eq_true]
    · simp [List.any_eq_true]

end Nitfy

namespace Nitfy

-- Lemmas about the multi-topic poll cycle -------------------------------------

theorem runCycle_cons (fetch : String → Except String (List NtfyMessage))
    (st : CycleState) (u : String) (us : List String) :
    runCycle fetch st (u :: us) = runCycle fetch (processTopic fetch st u) us :=
  rfl

theorem processTopic_error {fetch : String → Except String (List NtfyMessage)}
    {st : CycleState} {topic : String} {e : String}
    (h : fetch topic = Except.error e) :
    processTopic fetch st topic =
      { st with errors := st.errors ++ [(topic, e)] } := by
  simp only [processTopic, h]

theorem processTopic_ok_none
    {fetch : String → Except String (List NtfyMessage)}
    {st : CycleState} {topic : String} {messages : List NtfyMessage}
    (h : fetch topic = Except.ok messages)
    (h2 : (filterNewMessages messages (st.cursors topic)).getLast? = none) :
    processTopic fetch st topic = st := by
  simp only [processTopic, h, h2]

theorem processTopic_ok_some
    {fetch : String → Except String (List NtfyMessage)}
    {st : CycleState} {topic : String} {messages : List NtfyMessage}
    {newest : NtfyMessage}
    (h : fetch topic = Except.ok messages)
    (h2 : (filterNewMessages messages (st.cursors topic)).getLast?
        = some newest) :
    processTopic fetch st topic =
      { cursors := fun t =>
          if t = topic then newest.time else st.cursors t
        counts := fun t =>
          if t = topic then
            st.counts t +
              (filterNewMessages messages (st.cursors topic)).length
          else st.counts t
        rendered := st.rendered ++
          (filterNewMessages messages (st.cursors topic)).map
            (fun m => (topic, m))
        errors := st.errors } := by
  simp only [processTopic, h, h2]

theorem processTopic_frame
    (fetch : String → Except String (List NtfyMessage))
    (st : CycleState) (topic t : String) (hne : t ≠ topic) :
    (processTopic fetch st topic).cursors t = st.cursors t
    ∧ renderedFor (processTopic fetch st topic) t = renderedFor st t := by
  cases hf : fetch topic with
  | error e =>
    rw [processTopic_error hf]
    exact ⟨rfl, rfl⟩
  | ok messages =>
    cases h2 : (filterNewMessages messages (st.cursors topic)).getLast? with
    | none =>
      rw [processTopic_ok_none hf h2]
      exact ⟨rfl, rfl⟩
    | some newest =>
      rw [processTopic_ok_some hf h2]
      refine ⟨by simp [hne], ?_⟩
      simp [renderedFor, List.filter_append, List.filter_map,
        Function.comp, Ne.symm hne]

theorem processTopic_errors_mono
    (fetch : String → Except String (List NtfyMessage))
    (st : CycleState) (topic : String) :
    ∀ x ∈ st.errors, x ∈ (processTopic fetch st topic).errors := by
  intro x hx
  cases hf : fetch topic with
  | error e =>
    rw [processTopic_error hf]
    exact List.mem_append_left _ hx
  | ok messages =>
    cases h2 : (filterNewMessages messages (st.cursors topic)).getLast? with
    | none => rw [processTopic_ok_none hf h2]; exact hx
    | some newest => rw [processTopic_ok_some hf h2]; exact hx

theorem runCycle_errors_mono
    (fetch : String → Except String (List NtfyMessage))
    (topics : List String) :
    ∀ st, ∀ x ∈ st.errors, x ∈ (runCycle fetch st topics).errors := by
  induction topics with
  | nil => intro st x hx; exact hx
  | cons u us ih =>
    intro st x hx
    rw [runCycle_cons]
    exact ih _ x (processTopic_errors_mono fetch st u x hx)

theorem runCycle_frame
    (fetch : String → Except String (List NtfyMessage))
    (topics : List String) :
    ∀ st t, t ∉ topics →
      (runCycle fetch st topics).cursors t = st.cursors t
      ∧ renderedFor (runCycle fetch st topics) t = renderedFor st t := by
  induction topics with
  | nil => intro st t _; exact ⟨rfl, rfl⟩
  | cons u us ih =>
    intro st t ht
    have hne : t ≠ u := fun hh => ht (hh ▸ List.mem_cons_self u us)
    have hnotin : t ∉ us := fun hh => ht (List.mem_cons_of_mem u hh)
    rw [runCycle_cons]
    obtain ⟨hc, hr⟩ := ih (processTopic fetch st u) t hnotin
    obtain ⟨hc', hr'⟩ := processTopic_frame fetch st u t hne
    exact ⟨hc.trans hc', hr.trans hr'⟩

theorem processTopic_self_ok
    (fetch : String → Except String (List NtfyMessage))
    (st : CycleState) (topic : String) (messages : List NtfyMessage)
    (h : fetch topic = Except.ok messages) :
    (processTopic fetch st topic).cursors topic
        = (stepTopic (st.cursors topic) messages).1
    ∧ renderedFor (processTopic fetch st topic) topic
        = renderedFor st topic ++ (stepTopic (st.cursors topic) messages).2 := by
  cases h2 : (filterNewMessages messages (st.cursors topic)).getLast? with
  | none =>
    rw [processTopic_ok_none h h2, stepTopic_none h2]
    exact ⟨rfl, by simp⟩
  | some newest =>
    rw [processTopic_ok_some h h2, stepTopic_some h2]
    refine ⟨by simp, ?_⟩
    simp [renderedFor, List.filter_append, List.filter_map, Function.comp]

-- C5 --------------------------------------------------------------------------

/-- C5: a fetch failure on one topic is isolated. For any cycle over a
duplicate-free topic list: a topic whose fetch throws keeps its cursor
unchanged, nothing new is rendered for it, and the error is logged against
it; a topic whose fetch succeeds gets exactly the poll step's cursor
advance and renders exactly the poll step's new-message subset — in either
case independent of what happens to every other topic of the cycle, so no
other topic's failure aborts it. -/
theorem watch_cycle_fetch_failure_isolated
    (fetch : String → Except String (List NtfyMessage))
    (topics : List String) (st : CycleState) (t : String)
    (hnd : topics.Nodup) (ht : t ∈ topics) :
    (∀ e, fetch t = Except.error e →
        (runCycle fetch st topics).cursors t = st.cursors t
        ∧ (t, e) ∈ (runCycle fetch st topics).errors
        ∧ renderedFor (runCycle fetch st topics) t = renderedFor st t)
    ∧ (∀ messages, fetch t = Except.ok messages →
        (runCycle fetch st topics).cursors t
            = (stepTopic (st.cursors t) messages).1
        ∧ renderedFor (runCycle fetch st topics) t
            = renderedFor st t ++ (stepTopic (st.cursors t) messages).2) := by
  induction topics generalizing st with
  | nil => cases ht
  | cons u us ih =>
    rcases List.mem_cons.mp ht with rfl | htu
    · have hnotin : t ∉ us := (List.nodup_cons.mp hnd).1
      rw [runCycle_cons]
      obtain ⟨hc, hr⟩ := runCycle_frame fetch us (processTopic fetch st t)
        t hnotin
      constructor
      · intro e he
        rw [processTopic_error he] at hc hr ⊢
        refine ⟨hc, ?_, hr⟩
        exact runCycle_errors_mono fetch us _ (t, e)
          (List.mem_append_right _ (List.mem_singleton_self _))
      · intro messages hm
        obtain ⟨hc', hr'⟩ := processTopic_self_ok fetch st t messages hm
        exact ⟨hc.trans hc', hr.trans hr'⟩
    · have hne : t ≠ u := by
        rintro rfl
        exact (List.nodup_cons.mp hnd).1 htu
      rw [runCycle_cons]
      obtain ⟨hc, hr⟩ := processTopic_frame fetch st u t hne
      obtain ⟨iherr, ihok⟩ := ih (processTopic fetch st u)
        (List.nodup_cons.mp hnd).2 htu
      constructor
      · intro e he
        obtain ⟨h1, h2, h3⟩ := iherr e he
        exact ⟨h1.trans hc, h2, h3.trans hr⟩
      · intro messages hm
        obtain ⟨h1, h2⟩ := ihok messages hm
        rw [hc] at h1 h2
        rw [hr] at h2
        exact ⟨h1, h2⟩

/-- Witness for C5 at the claim's example: topic A's fetch throws "boom",
topic B's fetch succeeds with two messages at times 100 and 200; in the
same cycle A's cursor is unchanged and its error logged, while B's two
messages are rendered (times 100 then 200) and B's cursor advances
to 200. -/
theorem watch_cycle_fetch_failure_isolated_witness :
    (["A", "B"].Nodup ∧ "A" ∈ ["A", "B"] ∧ "B" ∈ ["A", "B"])
    ∧ (fetchAB "A" = Except.error "boom"
      ∧ fetchAB "B" = Except.ok [msg "x" 100, msg "y" 200])
    ∧ ((runCycle fetchAB initCycle ["A", "B"]).cursors "A"
          = initCycle.cursors "A"
      ∧ ("A", "boom") ∈ (runCycle fetchAB initCycle ["A", "B"]).errors)
    ∧ ((runCycle fetchAB initCycle ["A", "B"]).cursors "B"
          = (stepTopic (initCycle.cursors "B") [msg "x" 100, msg "y" 200]).1
      ∧ renderedFor (runCycle fetchAB initCycle ["A", "B"]) "B"
          = renderedFor initCycle "B" ++
              (stepTopic (initCycle.cursors "B")
                [msg "x" 100, msg "y" 200]).2)
    ∧ (stepTopic (initCycle.cursors "B") [msg "x" 100, msg "y" 200]).1 = 200
    ∧ ((stepTopic (initCycle.cursors "B") [msg "x" 100, msg "y" 200]).2).map
        (fun m => m.time) = [100, 200] := by
  have hA := (watch_cycle_fetch_failure_isolated fetchAB ["A", "B"]
    initCycle "A" (by decide) (by decide)).1 "boom" rfl
  have hB := (watch_cycle_fetch_failure_isolated fetchAB ["A", "B"]
    initCycle "B" (by decide) (by decide)).2 [msg "x" 100, msg "y" 200]
    rfl
  refine ⟨⟨by decide, by decide, by decide⟩, ⟨rfl, rfl⟩,
    ⟨hA.1, hA.2.1⟩, hB, ?_, ?_⟩
  · simp [stepTopic, filterNewMessages, msg, initCycle,
      List.mergeSort, List.merge]
  · simp [stepTopic, filterNewMessages, msg, initCycle,
      List.mergeSort, List.merge]

end Nitfy

namespace Nitfy

-- C6 --------------------------------------------------------------------------

/-- C6 (divergence evidence): the watch engine never feeds its cursors or
rendered timestamps into the durable read-state store — the loop body
contains no store call, so the store after any session equals the store
before it; concretely, a session that renders the message at time 100 for
topic "alerts" leaves the (profile "home", topic "alerts") last-read time
at 0, and a later one-shot unread check with that store re-surfaces the
very message the session already rendered. -/
theorem watch_session_leaves_store_unchanged :
    (∀ (store : State) (c : Nat) (rs : List (List NtfyMessage)),
        (watchSessionRun store c rs).1 = store)
    ∧ (watchSessionRun emptyState 0 [[msg "m1" 100]]).2.2 = [msg "m1" 100]
    ∧ getLastReadTime (watchSessionRun emptyState 0 [[msg "m1" 100]]).1
        "home" "alerts" = 0
    ∧ unreadFilter (watchSessionRun emptyState 0 [[msg "m1" 100]]).1
        "home" "alerts" [msg "m1" 100] = [msg "m1" 100] := by
  refine ⟨fun store c rs => rfl, ?_, rfl, rfl⟩
  simp [watchSessionRun, sessionRun, stepTopic, filterNewMessages, msg,
    List.mergeSort, List.merge]

-- C7 --------------------------------------------------------------------------

/-- C7 (divergence evidence): the inter-cycle sleep is not interruptible —
the sleep's wake-up instant is start + ms for every cancellation instant,
so the loop observes a cancellation signaled during the sleep only at the
full interval's end; concretely with a 10000 ms interval and cancellation
1000 ms into the sleep, the loop still exits at instant 10000, waiting out
the remaining 9000 ms. -/
theorem watch_sleep_not_interruptible :
    (∀ (start ms : Nat) (abortAt : Option Nat),
        sleepWake start ms abortAt = start + ms)
    ∧ (∀ (sleepStart intervalMs abortAt : Nat),
        watchExitTime sleepStart intervalMs abortAt
          = sleepStart + intervalMs)
    ∧ watchExitTime 0 10000 1000 = 10000
    ∧ (1000 : Nat) < 10000 :=
  ⟨fun _ _ _ => rfl, fun _ _ _ => rfl, rfl, by decide⟩

-- C8 --------------------------------------------------------------------------

theorem deliverSigints_after_exit (m : Nat) :
    deliverSigints { summaries := 1, exitCodes := [0] } m
      = { summaries := 1, exitCodes := [0] } := by
  induction m with
  | zero => rfl
  | succ k ih =>
    show deliverSigints
      (deliverSigint { summaries := 1, exitCodes := [0] }) k = _
    rw [show deliverSigint { summaries := 1, exitCodes := [0] }
        = { summaries := 1, exitCodes := [0] } from rfl]
    exact ih

/-- C8: shutdown of a watch session is idempotent — for any positive number
of SIGINTs delivered to a fresh session, the summary is printed exactly
once and the process performs exactly one exit, with code 0 (the first
delivered signal runs the handler, which prints the summary and exits;
process.exit terminates the process, so no later signal reaches the
handler). -/
theorem watch_shutdown_idempotent (n : Nat) (h : 0 < n) :
    deliverSigints initialProc n = { summaries := 1, exitCodes := [0] } := by
  obtain ⟨m, rfl⟩ : ∃ m, n = m + 1 := ⟨n - 1, by omega⟩
  show deliverSigints (deliverSigint initialProc) m = _
  rw [show deliverSigint initialProc
      = { summaries := 1, exitCodes := [0] } from rfl]
  exact deliverSigints_after_exit m

/-- Witness for C8: two interrupts in quick succession still yield exactly
one summary and one successful exit. -/
theorem watch_shutdown_idempotent_witness :
    0 < 2 ∧ deliverSigints initialProc 2
      = { summaries := 1, exitCodes := [0] } :=
  ⟨by decide, watch_shutdown_idempotent 2 (by decide)⟩

-- C9 --------------------------------------------------------------------------

/-- C9 counterexample: loading a corrupt (unparseable) state file yields
the empty store with NO warning written to stderr — the warning list is
empty, refuting the claim that a corrupt file is reported as a non-fatal
warning. -/
theorem loadState_corrupt_silent_cex :
    (loadState StateFile.corrupt).1 = emptyState
    ∧ (loadState StateFile.corrupt).2 = [] :=
  ⟨rfl, rfl⟩

/-- C9 amended: a missing state file silently yields the empty store, and a
corrupt (unparseable) file is also silently treated as the empty store —
loadState emits no warning on any path. -/
theorem loadState_missing_or_corrupt_empty_silent :
    loadState StateFile.missing = (emptyState, [])
    ∧ loadState StateFile.corrupt = (emptyState, [])
    ∧ (∀ st, loadState (StateFile.parsed st) = (st, []))
    ∧ ∀ fc, (loadState fc).2 = [] := by
  refine ⟨rfl, rfl, fun st => rfl, fun fc => ?_⟩
  cases fc <;> rfl

-- C10 -------------------------------------------------------------------------

/-- C10 counterexample: the compound key is not injective over all profile
and topic names — the distinct pairs ("a/b", "c") and ("a", "b/c") both
map to the key "a/b/c". -/
theorem getStateKey_collision_cex :
    getStateKey "a/b" "c" = getStateKey "a" "b/c"
    ∧ (("a/b", "c") : String × String) ≠ ("a", "b/c") :=
  ⟨rfl, by decide⟩

theorem slashfree_append_inj {l₁ l₂ r₁ r₂ : List Char}
    (h₁ : '/' ∉ l₁) (h₂ : '/' ∉ l₂)
    (h : l₁ ++ '/' :: r₁ = l₂ ++ '/' :: r₂) : l₁ = l₂ ∧ r₁ = r₂ := by
  induction l₁ generalizing l₂ with
  | nil =>
    cases l₂ with
    | nil => simpa using h
    | cons b bs =>
      simp only [List.nil_append, List.cons_append, List.cons.injEq] at h
      exact absurd (h.1 ▸ List.mem_cons_self b bs) h₂
  | cons a as ih =>
    cases l₂ with
    | nil =>
      simp only [List.cons_append, List.nil_append, List.cons.injEq] at h
      exact absurd (h.1 ▸ List.mem_cons_self a as) h₁
    | cons b bs =>
      simp only [List.cons_append, List.cons.injEq] at h
      obtain ⟨hab, hrest⟩ := h
      have h₁' : '/' ∉ as := fun hh => h₁ (List.mem_cons_of_mem a hh)
      have h₂' : '/' ∉ bs := fun hh => h₂ (List.mem_cons_of_mem b hh)
      obtain ⟨he, hr⟩ := ih h₁' h₂' hrest
      exact ⟨by rw [hab, he], hr⟩

theorem getStateKey_data (p t : String) :
    (getStateKey p t).data = p.data ++ '/' :: t.data := by
  simp [getStateKey, String.data_append]

/-- C10 amended: the compound key is injective as long as profile names
contain no '/' character (topic names are unrestricted): two pairs with
slash-free profile names that produce the same key are equal, so such keys
are reversible at the first '/'. -/
theorem getStateKey_injective_slashfree_profiles
    (p₁ t₁ p₂ t₂ : String)
    (h₁ : '/' ∉ p₁.data) (h₂ : '/' ∉ p₂.data)
    (h : getStateKey p₁ t₁ = getStateKey p₂ t₂) :
    p₁ = p₂ ∧ t₁ = t₂ := by
  have hd := congrArg String.data h
  rw [getStateKey_data, getStateKey_data] at hd
  obtain ⟨hp, ht⟩ := slashfree_append_inj h₁ h₂ hd
  constructor
  · cases p₁
    cases p₂
    exact congrArg String.mk hp
  · cases t₁
    cases t₂
    exact congrArg String.mk ht

/-- Witness for C10's amended statement at slash-free profile names. -/
theorem getStateKey_injective_slashfree_profiles_witness :
    '/' ∉ "home".data
    ∧ getStateKey "home" "alerts" = getStateKey "home" "alerts"
    ∧ ("home" = "home" ∧ "alerts" = "alerts") :=
  ⟨by decide, rfl,
    getStateKey_injective_slashfree_profiles "home" "alerts" "home" "alerts"
      (by decide) (by decide) rfl⟩

end Nitfy
